import Mathlib

/-!
Verification of the `rbf` Brainf*** interpreter (src/lib.rs, src/errors.rs).

Shallow embedding conventions:
* `usize` is modelled as `Nat`; the tape index is conceptually unbounded and
  the only checked-arithmetic failure the code can hit is going negative.
* `isize` is modelled as `Int`; the `as i8` truncation in `move_cell_value`
  is modelled explicitly by `as_i8`.
* `char` values are modelled by their code points as `Nat`.
* Rust's `Vec<u8>` tape is a `List Nat`; every write goes through
  `List.set`, and `Program.step` grows the tape (`validate_cells_length`)
  before dispatch exactly as the Rust code does, so all in-place writes in
  reachable code are in bounds.
* A Rust method that mutates `self` and returns `Result<()>` becomes a
  function returning the updated state; `Program.step` returns the updated
  state together with an `Option BFErrorKind`, because the Rust `step`
  leaves its (partially) mutated state behind when it returns an error.
* The input closure is modelled as a stream `inp : Nat → Nat` indexed by a
  running read counter, so that "the provider is invoked exactly once" is
  visible as the counter growing by one.  Output is the list of code points
  emitted by the step.
-/

namespace RBF

/-- Mirrors `enum Instruct` in src/lib.rs. -/
inductive Instruct where
  | MvPtr (n : Int)
  | MvValue (n : Int)
  | Output
  | Input
  | OpenLoop
  | CloseLoop
deriving DecidableEq, Repr

/-- Mirrors `enum BFErrorKind` in src/errors.rs (the `BFError` wrapper
struct carries nothing but the kind, so we use the kind directly). -/
inductive BFErrorKind where
  | MissingOpen
  | MissingClose
  | InvalidInput
  | CellBoundsError
  | InstructionBoundsError
deriving DecidableEq, Repr

/-- The per-character table inside `Instructions::from_string` (the Rust
`match` on the eight character literals, written as the equality-test chain
it denotes). -/
def char_to_instruct (c : Char) : Option Instruct :=
  if c = '>' then some (Instruct.MvPtr 1)
  else if c = '<' then some (Instruct.MvPtr (-1))
  else if c = '-' then some (Instruct.MvValue (-1))
  else if c = '+' then some (Instruct.MvValue 1)
  else if c = '.' then some Instruct.Output
  else if c = ',' then some Instruct.Input
  else if c = '[' then some Instruct.OpenLoop
  else if c = ']' then some Instruct.CloseLoop
  else none

/-- Mirrors `struct Instructions(Vec<Instruct>)`. -/
abbrev Instructions := List Instruct

/-- Mirrors `Instructions::from_string`: a fold over the characters pushing
the translation of each recognised command, skipping everything else. -/
def Instructions.from_string (commands : List Char) : Instructions :=
  commands.foldl
    (fun acc c =>
      match char_to_instruct c with
      | some i => acc ++ [i]
      | none => acc)
    []

/-- Mirrors `struct Program` in src/lib.rs. -/
structure Program where
  instructions : List Instruct
  instruction_ptr : Nat
  cells : List Nat
  cell_ptr : Nat
  loop_stack : List Nat
deriving DecidableEq, Repr

namespace Program

/-- Mirrors `Program::new`. -/
def new (instructions : List Instruct) : Program :=
  { instructions := instructions
    instruction_ptr := 0
    cells := []
    cell_ptr := 0
    loop_stack := [] }

/-- Mirrors `Program::from_string`. -/
def from_string (commands : List Char) : Program :=
  new (Instructions.from_string commands)

/-- Mirrors `Program::reset`. -/
def reset (p : Program) : Program :=
  { p with
    instruction_ptr := 0
    cells := []
    cell_ptr := 0
    loop_stack := [] }

/-- Mirrors `Program::done`. -/
def done (p : Program) : Except BFErrorKind Bool :=
  if p.instruction_ptr ≥ p.instructions.length then
    if p.loop_stack.length > 0 then
      Except.error BFErrorKind.MissingClose
    else
      Except.ok true
  else
    Except.ok false

/-- Models `usize::checked_add_signed` with `usize` as `Nat`: the result
is `none` exactly when it would be negative. -/
def checked_add_signed (n : Nat) (a : Int) : Option Nat :=
  if (n : Int) + a < 0 then none else some ((n : Int) + a).toNat

/-- Mirrors `Program::move_cell_pointer`: on `none` from the checked add the
cell pointer is left untouched and `CellBoundsError` is returned. -/
def move_cell_pointer (p : Program) (amount : Int) : Except BFErrorKind Program :=
  match checked_add_signed p.cell_ptr amount with
  | some val => Except.ok { p with cell_ptr := val }
  | none => Except.error BFErrorKind.CellBoundsError

/-- The `while self.cells.len() <= self.cell_ptr { self.cells.push(0) }`
loop of `Program::validate_cells_length`. -/
def grow_cells (cells : List Nat) (cell_ptr : Nat) : List Nat :=
  if cells.length ≤ cell_ptr then grow_cells (cells ++ [0]) cell_ptr else cells
termination_by cell_ptr + 1 - cells.length
decreasing_by simp [List.length_append]; omega

/-- Mirrors `Program::validate_cells_length`. -/
def validate_cells_length (p : Program) : Program :=
  { p with cells := grow_cells p.cells p.cell_ptr }

/-- Models `isize as i8`: two's-complement truncation to the signed byte range. -/
def as_i8 (a : Int) : Int :=
  (a + 128) % 256 - 128

/-- Models `u8::wrapping_add_signed`. -/
def wrapping_add_signed (c : Nat) (t : Int) : Nat :=
  (((c : Int) + t) % 256).toNat

/-- Mirrors `Program::move_cell_value`:
`cells[cell_ptr] = cells[cell_ptr].wrapping_add_signed(amount as i8)`. -/
def move_cell_value (p : Program) (amount : Int) : Program :=
  { p with
    cells := p.cells.set p.cell_ptr
      (wrapping_add_signed (p.cells.getD p.cell_ptr 0) (as_i8 amount)) }

/-- Mirrors `Program::input_cell`; `in_char` is the code point returned by
the input closure. -/
def input_cell (p : Program) (in_char : Nat) : Except BFErrorKind Program :=
  if in_char < 256 then
    Except.ok { p with cells := p.cells.set p.cell_ptr in_char }
  else
    Except.error BFErrorKind.InvalidInput

/-- Mirrors `Program::output_cell`: the code point handed to the output
closure. -/
def output_cell (p : Program) : Nat :=
  p.cells.getD p.cell_ptr 0

/-- The scanning loop of `Program::move_to_closed_loop`: a local stack of
positions and a cursor starting one past the open loop.  The Rust loop
fetches `instructions.0.get(current_instruction)` and stops with
`MissingClose` on `None`; `get` returns `None` exactly when the index is
out of bounds, which is the bound test here. -/
def move_to_closed_loop_aux (instrs : List Instruct) (loopstack : List Nat)
    (current_instruction : Nat) : Except BFErrorKind Nat :=
  if hlt : current_instruction < instrs.length then
    match instrs[current_instruction] with
    | Instruct.OpenLoop =>
        move_to_closed_loop_aux instrs (current_instruction :: loopstack)
          (current_instruction + 1)
    | Instruct.CloseLoop =>
        match loopstack with
        | [] => Except.ok current_instruction
        | _ :: rest =>
            move_to_closed_loop_aux instrs rest (current_instruction + 1)
    | _ => move_to_closed_loop_aux instrs loopstack (current_instruction + 1)
  else Except.error BFErrorKind.MissingClose
termination_by instrs.length - current_instruction
decreasing_by all_goals omega

/-- Mirrors `Program::move_to_closed_loop`: on success the instruction
pointer is set to the found position; on failure it is left untouched. -/
def move_to_closed_loop (p : Program) : Except BFErrorKind Program :=
  match move_to_closed_loop_aux p.instructions [] (p.instruction_ptr + 1) with
  | Except.ok pos => Except.ok { p with instruction_ptr := pos }
  | Except.error e => Except.error e

/-- Mirrors `Program::open_loop`. -/
def open_loop (p : Program) : Except BFErrorKind Program :=
  if p.cells.getD p.cell_ptr 0 > 0 then
    Except.ok { p with loop_stack := p.instruction_ptr :: p.loop_stack }
  else
    move_to_closed_loop p

/-- Mirrors `Program::close_loop`.  `n - 1` is `Nat` subtraction here; the
Rust `usize` subtraction would panic at `n = 0`, a case shown unreachable
for reachable states (claim about loop-stack entries being positive). -/
def close_loop (p : Program) : Except BFErrorKind Program :=
  match p.loop_stack with
  | [] => Except.error BFErrorKind.MissingOpen
  | n :: rest =>
      Except.ok { p with instruction_ptr := n - 1, loop_stack := rest }

/-- The result of one `Program::step` call: the state the Rust `&mut self`
holds afterwards, the new value of the read counter (how many times the
input closure has been invoked so far), the code points emitted to the
output closure during this step, and the error, if any, that `step`
returned. -/
structure StepResult where
  state : Program
  reads : Nat
  output : List Nat
  error : Option BFErrorKind
deriving DecidableEq, Repr

/-- The `self.instruction_ptr += 1` at the end of `Program::step`. -/
def advance (p : Program) : Program :=
  { p with instruction_ptr := p.instruction_ptr + 1 }

/-- Mirrors `Program::step`: grow the tape, fetch the instruction
(`InstructionBoundsError` past the end), dispatch, then advance the
instruction pointer by one on success.  On an error the state is whatever
the failing operation left behind. -/
def step (inp : Nat → Nat) (p0 : Program) (reads : Nat) : StepResult :=
  let p := validate_cells_length p0
  match p.instructions[p.instruction_ptr]? with
  | none => ⟨p, reads, [], some BFErrorKind.InstructionBoundsError⟩
  | some (Instruct.MvPtr n) =>
      match move_cell_pointer p n with
      | Except.ok p1 => ⟨advance p1, reads, [], none⟩
      | Except.error e => ⟨p, reads, [], some e⟩
  | some (Instruct.MvValue n) =>
      ⟨advance (move_cell_value p n), reads, [], none⟩
  | some Instruct.Input =>
      match input_cell p (inp reads) with
      | Except.ok p1 => ⟨advance p1, reads + 1, [], none⟩
      | Except.error e => ⟨p, reads + 1, [], some e⟩
  | some Instruct.Output =>
      ⟨advance p, reads, [output_cell p], none⟩
  | some Instruct.OpenLoop =>
      match open_loop p with
      | Except.ok p1 => ⟨advance p1, reads, [], none⟩
      | Except.error e => ⟨p, reads, [], some e⟩
  | some Instruct.CloseLoop =>
      match close_loop p with
      | Except.ok p1 => ⟨advance p1, reads, [], none⟩
      | Except.error e => ⟨p, reads, [], some e⟩

end Program

/-- The states an engine over `instrs` can be in after construction (or
`reset`, which yields the same state) followed by any number of `step`
calls, successful or not — `execute` only iterates `done`/`step`, so its
reachable states are included. -/
inductive Reachable (instrs : List Instruct) : Program → Prop where
  | init : Reachable instrs (Program.new instrs)
  | stepped (inp : Nat → Nat) (reads : Nat) (p : Program) :
      Reachable instrs p → Reachable instrs (Program.step inp p reads).state
  | was_reset (p : Program) :
      Reachable instrs p → Reachable instrs p.reset

/-- The loop-skip matching algorithm exactly as the specification words
it: scan forward maintaining a numeric nesting counter initialised to
zero, incrementing on Open-Loop; on Close-Loop with counter zero the scan
answers that position, otherwise it decrements; `none` means the end of
the sequence was reached first.  This is the spec-side definition used to
state the refinement; the code-side scan is
`Program.move_to_closed_loop_aux`. -/
def loop_skip_scan_spec (instrs : List Instruct) (cur counter : Nat) : Option Nat :=
  match h : instrs[cur]? with
  | none => none
  | some Instruct.OpenLoop => loop_skip_scan_spec instrs (cur + 1) (counter + 1)
  | some Instruct.CloseLoop =>
      if counter = 0 then some cur
      else loop_skip_scan_spec instrs (cur + 1) (counter - 1)
  | some _ => loop_skip_scan_spec instrs (cur + 1) counter
termination_by instrs.length - cur
decreasing_by
  all_goals
    have hlt : cur < instrs.length := by
      by_contra hc
      rw [List.getElem?_eq_none (by omega)] at h
      exact Option.noConfusion h
    omega

/-- The execution invariant behind the safety of `close_loop`'s `- 1`:
every recorded loop position is at least 1, and an engine whose
instruction cursor is (still) 0 has an empty loop stack, tape cursor 0 and
an all-zero tape — the state before any successful step. -/
def Inv (p : Program) : Prop :=
  (∀ q ∈ p.loop_stack, 1 ≤ q)
    ∧ (p.instruction_ptr = 0 →
        p.loop_stack = [] ∧ p.cell_ptr = 0 ∧ ∀ i, p.cells.getD i 0 = 0)

/-! ### Helper lemmas about lists -/

theorem replicate_getD_zero (k i : Nat) : (List.replicate k 0).getD i 0 = 0 := by
  induction k generalizing i with
  | zero => simp
  | succ k ih => cases i <;> simp [List.replicate_succ, ih]

theorem getD_append_replicate_zero (cells : List Nat) (k i : Nat) :
    (cells ++ List.replicate k 0).getD i 0 = cells.getD i 0 := by
  induction cells generalizing i with
  | nil => simp [replicate_getD_zero]
  | cons a t ih =>
      cases i with
      | zero => simp
      | succ n => simpa [List.getD_eq_getElem?_getD] using ih n

theorem getD_set_self (l : List Nat) (i x : Nat) (h : i < l.length) :
    (l.set i x).getD i 0 = x := by
  induction l generalizing i with
  | nil => simp at h
  | cons a t ih => cases i <;> simp_all

theorem getD_set_ne (l : List Nat) (i j x : Nat) (h : i ≠ j) :
    (l.set i x).getD j 0 = l.getD j 0 := by
  induction l generalizing i j with
  | nil => simp
  | cons a t ih =>
      cases i <;> cases j <;> simp_all

/-! ### The tape-growth loop in closed form -/

theorem grow_cells_eq (cells : List Nat) (cell_ptr : Nat) :
    Program.grow_cells cells cell_ptr =
      cells ++ List.replicate (cell_ptr + 1 - cells.length) 0 := by
  by_cases h : cells.length ≤ cell_ptr
  · have hrec := grow_cells_eq (cells ++ [0]) cell_ptr
    rw [Program.grow_cells, if_pos h, hrec]
    have h2 : cell_ptr + 1 - cells.length
        = (cell_ptr + 1 - (cells ++ [0]).length) + 1 := by
      simp [List.length_append]; omega
    rw [h2, List.append_assoc]
    congr 1
  · rw [Program.grow_cells, if_neg h]
    have h2 : cell_ptr + 1 - cells.length = 0 := by omega
    simp [h2]
termination_by cell_ptr + 1 - cells.length
decreasing_by simp [List.length_append]; omega

theorem length_grow_cells (cells : List Nat) (cell_ptr : Nat) :
    (Program.grow_cells cells cell_ptr).length = max cells.length (cell_ptr + 1) := by
  rw [grow_cells_eq]; simp; omega

theorem getD_grow_cells (cells : List Nat) (cell_ptr i : Nat) :
    (Program.grow_cells cells cell_ptr).getD i 0 = cells.getD i 0 := by
  rw [grow_cells_eq, getD_append_replicate_zero]

theorem cell_ptr_lt_length_grow_cells (cells : List Nat) (cell_ptr : Nat) :
    cell_ptr < (Program.grow_cells cells cell_ptr).length := by
  rw [length_grow_cells]; omega

theorem validate_fields (p : Program) :
    (p.validate_cells_length.instructions = p.instructions
      ∧ p.validate_cells_length.instruction_ptr = p.instruction_ptr
      ∧ p.validate_cells_length.cell_ptr = p.cell_ptr
      ∧ p.validate_cells_length.loop_stack = p.loop_stack)
      ∧ p.validate_cells_length.cells = Program.grow_cells p.cells p.cell_ptr := by
  simp [Program.validate_cells_length]

theorem validate_instructions (p : Program) :
    p.validate_cells_length.instructions = p.instructions := rfl

theorem validate_instruction_ptr (p : Program) :
    p.validate_cells_length.instruction_ptr = p.instruction_ptr := rfl

theorem validate_cell_ptr (p : Program) :
    p.validate_cells_length.cell_ptr = p.cell_ptr := rfl

theorem validate_loop_stack (p : Program) :
    p.validate_cells_length.loop_stack = p.loop_stack := rfl

theorem validate_cells (p : Program) :
    p.validate_cells_length.cells = Program.grow_cells p.cells p.cell_ptr := rfl

theorem getD_validate (p : Program) (i : Nat) :
    p.validate_cells_length.cells.getD i 0 = p.cells.getD i 0 := by
  rw [validate_cells, getD_grow_cells]

theorem cell_ptr_lt_validate (p : Program) :
    p.cell_ptr < p.validate_cells_length.cells.length := by
  rw [validate_cells]; exact cell_ptr_lt_length_grow_cells _ _

/-- The function `open_loop` only ever touches the instruction pointer and the loop
stack. -/
theorem open_loop_frame (p p1 : Program) (h : p.open_loop = Except.ok p1) :
    p1.instructions = p.instructions ∧ p1.cells = p.cells
      ∧ p1.cell_ptr = p.cell_ptr := by
  rw [Program.open_loop] at h
  by_cases hc : p.cells.getD p.cell_ptr 0 > 0
  · rw [if_pos hc] at h
    cases h
    exact ⟨rfl, rfl, rfl⟩
  · rw [if_neg hc, Program.move_to_closed_loop] at h
    cases hm : Program.move_to_closed_loop_aux p.instructions [] (p.instruction_ptr + 1) with
    | ok pos => rw [hm] at h; cases h; exact ⟨rfl, rfl, rfl⟩
    | error e => rw [hm] at h; cases h

/-- The function `close_loop` only ever touches the instruction pointer and the loop
stack. -/
theorem close_loop_frame (p p1 : Program) (h : p.close_loop = Except.ok p1) :
    p1.instructions = p.instructions ∧ p1.cells = p.cells
      ∧ p1.cell_ptr = p.cell_ptr := by
  rw [Program.close_loop] at h
  cases hs : p.loop_stack with
  | nil => rw [hs] at h; cases h
  | cons n rest => rw [hs] at h; cases h; exact ⟨rfl, rfl, rfl⟩

theorem advance_fields (p : Program) :
    (Program.advance p).instructions = p.instructions
      ∧ (Program.advance p).instruction_ptr = p.instruction_ptr + 1
      ∧ (Program.advance p).cells = p.cells
      ∧ (Program.advance p).cell_ptr = p.cell_ptr
      ∧ (Program.advance p).loop_stack = p.loop_stack :=
  ⟨rfl, rfl, rfl, rfl, rfl⟩

/-! ### Claim theorems -/

/-- Claim C3: `done` returns `true` iff the instruction cursor is at or
beyond the end of the sequence and the loop stack is empty; it returns
`false` when the cursor is strictly inside the sequence; and it fails with
`MissingClose` when the cursor has reached the end while the loop stack is
non-empty. -/
theorem C3_done_spec (p : Program) :
    (p.done = Except.ok true
        ↔ p.instructions.length ≤ p.instruction_ptr ∧ p.loop_stack = [])
    ∧ (p.instruction_ptr < p.instructions.length → p.done = Except.ok false)
    ∧ (p.instructions.length ≤ p.instruction_ptr → p.loop_stack ≠ []
        → p.done = Except.error BFErrorKind.MissingClose) := by
  refine ⟨?_, ?_, ?_⟩
  · constructor
    · intro h
      by_cases h1 : p.instruction_ptr ≥ p.instructions.length
      · by_cases h2 : p.loop_stack.length > 0
        · simp [Program.done, h1, h2] at h
        · refine ⟨h1, ?_⟩
          cases hs : p.loop_stack with
          | nil => rfl
          | cons a t => rw [hs] at h2; simp at h2
      · simp [Program.done, h1] at h
    · rintro ⟨h1, h2⟩
      simp [Program.done, h1, h2]
  · intro h
    have h1 : ¬ p.instruction_ptr ≥ p.instructions.length := by omega
    simp [Program.done, h1]
  · intro h1 h2
    have h3 : p.loop_stack.length > 0 := by
      cases hs : p.loop_stack with
      | nil => exact absurd hs h2
      | cons a t => simp [hs]
    simp [Program.done, h1, h3]

/-- Claim C8: `reset` applied to any engine state yields exactly the state
of a freshly constructed engine over the same instruction sequence:
instruction cursor 0, empty tape, tape cursor 0, empty loop stack, with the
instruction sequence unchanged. -/
theorem C8_reset_eq_new (p : Program) :
    p.reset = Program.new p.instructions
      ∧ p.reset.instruction_ptr = 0 ∧ p.reset.cells = []
      ∧ p.reset.cell_ptr = 0 ∧ p.reset.loop_stack = []
      ∧ p.reset.instructions = p.instructions := by
  cases p; exact ⟨rfl, rfl, rfl, rfl, rfl, rfl⟩

theorem from_string_foldl (commands : List Char) (acc : List Instruct) :
    commands.foldl
      (fun acc c =>
        match char_to_instruct c with
        | some i => acc ++ [i]
        | none => acc)
      acc
      = acc ++ commands.filterMap char_to_instruct := by
  induction commands generalizing acc with
  | nil => simp
  | cons c cs ih =>
      cases h : char_to_instruct c <;>
        simp [List.foldl_cons, h, ih, List.filterMap_cons]

/-- Claim C4: the instruction-sequence builder maps each of the eight
recognised characters to its instruction under the fixed mapping, in source
order, silently discards every other character, and its output length is
the number of recognised characters; it is a total function (no error). -/
theorem C4_from_string_spec (commands : List Char) :
    Instructions.from_string commands = commands.filterMap char_to_instruct
    ∧ (Instructions.from_string commands).length
        = (commands.filter (fun c => (char_to_instruct c).isSome)).length
    ∧ char_to_instruct '>' = some (Instruct.MvPtr 1)
    ∧ char_to_instruct '<' = some (Instruct.MvPtr (-1))
    ∧ char_to_instruct '+' = some (Instruct.MvValue 1)
    ∧ char_to_instruct '-' = some (Instruct.MvValue (-1))
    ∧ char_to_instruct '.' = some Instruct.Output
    ∧ char_to_instruct ',' = some Instruct.Input
    ∧ char_to_instruct '[' = some Instruct.OpenLoop
    ∧ char_to_instruct ']' = some Instruct.CloseLoop
    ∧ (∀ c : Char, c ∉ ['>', '<', '+', '-', '.', ',', '[', ']']
        → char_to_instruct c = none) := by
  refine ⟨?_, ?_, rfl, rfl, rfl, rfl, rfl, rfl, rfl, rfl, ?_⟩
  · rw [Instructions.from_string, from_string_foldl]; simp
  · rw [Instructions.from_string, from_string_foldl]
    simp [List.length_filterMap_eq_countP, List.countP_eq_length_filter]
  · intro c hc
    simp only [List.mem_cons, List.not_mem_nil, or_false, not_or] at hc
    obtain ⟨h1, h2, h3, h4, h5, h6, h7, h8⟩ := hc
    simp [char_to_instruct, h1, h2, h3, h4, h5, h6, h7, h8]

theorem move_cell_pointer_ok (p p1 : Program) (a : Int)
    (h : p.move_cell_pointer a = Except.ok p1) :
    p1.instructions = p.instructions
      ∧ p1.instruction_ptr = p.instruction_ptr
      ∧ p1.cells = p.cells
      ∧ p1.loop_stack = p.loop_stack := by
  rw [Program.move_cell_pointer] at h
  cases hc : Program.checked_add_signed p.cell_ptr a with
  | none => rw [hc] at h; cases h
  | some v => rw [hc] at h; cases h; exact ⟨rfl, rfl, rfl, rfl⟩

theorem input_cell_ok (p p1 : Program) (ch : Nat)
    (h : p.input_cell ch = Except.ok p1) :
    p1.cells = p.cells.set p.cell_ptr ch
      ∧ p1.instructions = p.instructions
      ∧ p1.instruction_ptr = p.instruction_ptr
      ∧ p1.cell_ptr = p.cell_ptr
      ∧ p1.loop_stack = p.loop_stack := by
  rw [Program.input_cell] at h
  by_cases hc : ch < 256
  · rw [if_pos hc] at h; cases h; exact ⟨rfl, rfl, rfl, rfl, rfl⟩
  · rw [if_neg hc] at h; cases h

/-- After any `step`, the state's tape is the grown tape, possibly with one
cell overwritten at the (pre-step) tape cursor. -/
theorem step_state_cells (inp : Nat → Nat) (reads : Nat) (p : Program) :
    (Program.step inp p reads).state.cells = p.validate_cells_length.cells
      ∨ ∃ x, (Program.step inp p reads).state.cells
          = p.validate_cells_length.cells.set p.cell_ptr x := by
  simp only [Program.step]
  split
  · exact Or.inl rfl
  · rename_i n
    split
    · rename_i p1 heq
      exact Or.inl (move_cell_pointer_ok _ _ _ heq).2.2.1
    · exact Or.inl rfl
  · exact Or.inr ⟨_, rfl⟩
  · split
    · rename_i p1 heq
      exact Or.inr ⟨_, (input_cell_ok _ _ _ heq).1⟩
    · exact Or.inl rfl
  · exact Or.inl rfl
  · split
    · rename_i p1 heq
      exact Or.inl (open_loop_frame _ _ heq).2.1
    · exact Or.inl rfl
  · split
    · rename_i p1 heq
      exact Or.inl (close_loop_frame _ _ heq).2.1
    · exact Or.inl rfl

theorem step_cells_length_lt (inp : Nat → Nat) (reads : Nat) (p : Program) :
    p.cell_ptr < (Program.step inp p reads).state.cells.length := by
  rcases step_state_cells inp reads p with h | ⟨x, h⟩
  · rw [h]; exact cell_ptr_lt_validate p
  · rw [h, List.length_set]; exact cell_ptr_lt_validate p

theorem aux_none (instrs : List Instruct) (stack : List Nat) (cur : Nat)
    (h : instrs[cur]? = none) :
    Program.move_to_closed_loop_aux instrs stack cur
      = Except.error BFErrorKind.MissingClose := by
  have hge : ¬ cur < instrs.length := by
    intro hlt
    rw [List.getElem?_eq_getElem hlt] at h
    exact Option.noConfusion h
  rw [Program.move_to_closed_loop_aux.eq_def, dif_neg hge]

theorem aux_open (instrs : List Instruct) (stack : List Nat) (cur : Nat)
    (h : instrs[cur]? = some Instruct.OpenLoop) :
    Program.move_to_closed_loop_aux instrs stack cur
      = Program.move_to_closed_loop_aux instrs (cur :: stack) (cur + 1) := by
  have hlt : cur < instrs.length := by
    by_contra hc
    rw [List.getElem?_eq_none (by omega)] at h
    exact Option.noConfusion h
  have hget : instrs[cur] = Instruct.OpenLoop := by
    simpa [List.getElem?_eq_getElem hlt] using h
  conv_lhs => rw [Program.move_to_closed_loop_aux.eq_def]
  simp only [dif_pos hlt, hget]

theorem aux_close_nil (instrs : List Instruct) (cur : Nat)
    (h : instrs[cur]? = some Instruct.CloseLoop) :
    Program.move_to_closed_loop_aux instrs [] cur = Except.ok cur := by
  have hlt : cur < instrs.length := by
    by_contra hc
    rw [List.getElem?_eq_none (by omega)] at h
    exact Option.noConfusion h
  have hget : instrs[cur] = Instruct.CloseLoop := by
    simpa [List.getElem?_eq_getElem hlt] using h
  conv_lhs => rw [Program.move_to_closed_loop_aux.eq_def]
  simp only [dif_pos hlt, hget]

theorem aux_close_cons (instrs : List Instruct) (q : Nat) (rest : List Nat)
    (cur : Nat) (h : instrs[cur]? = some Instruct.CloseLoop) :
    Program.move_to_closed_loop_aux instrs (q :: rest) cur
      = Program.move_to_closed_loop_aux instrs rest (cur + 1) := by
  have hlt : cur < instrs.length := by
    by_contra hc
    rw [List.getElem?_eq_none (by omega)] at h
    exact Option.noConfusion h
  have hget : instrs[cur] = Instruct.CloseLoop := by
    simpa [List.getElem?_eq_getElem hlt] using h
  conv_lhs => rw [Program.move_to_closed_loop_aux.eq_def]
  simp only [dif_pos hlt, hget]

theorem aux_other (instrs : List Instruct) (stack : List Nat) (cur : Nat)
    (i : Instruct) (h : instrs[cur]? = some i)
    (hno : i ≠ Instruct.OpenLoop) (hnc : i ≠ Instruct.CloseLoop) :
    Program.move_to_closed_loop_aux instrs stack cur
      = Program.move_to_closed_loop_aux instrs stack (cur + 1) := by
  have hlt : cur < instrs.length := by
    by_contra hc
    rw [List.getElem?_eq_none (by omega)] at h
    exact Option.noConfusion h
  have hget : instrs[cur] = i := by
    simpa [List.getElem?_eq_getElem hlt] using h
  conv_lhs => rw [Program.move_to_closed_loop_aux.eq_def]
  simp only [dif_pos hlt, hget]

theorem scan_none (instrs : List Instruct) (cur counter : Nat)
    (h : instrs[cur]? = none) :
    loop_skip_scan_spec instrs cur counter = none := by
  conv_lhs => rw [loop_skip_scan_spec]
  split <;> simp_all

theorem scan_open (instrs : List Instruct) (cur counter : Nat)
    (h : instrs[cur]? = some Instruct.OpenLoop) :
    loop_skip_scan_spec instrs cur counter
      = loop_skip_scan_spec instrs (cur + 1) (counter + 1) := by
  conv_lhs => rw [loop_skip_scan_spec]
  split <;> simp_all

theorem scan_close (instrs : List Instruct) (cur counter : Nat)
    (h : instrs[cur]? = some Instruct.CloseLoop) :
    loop_skip_scan_spec instrs cur counter
      = if counter = 0 then some cur
        else loop_skip_scan_spec instrs (cur + 1) (counter - 1) := by
  conv_lhs => rw [loop_skip_scan_spec]
  split <;> simp_all

theorem scan_other (instrs : List Instruct) (cur counter : Nat) (i : Instruct)
    (h : instrs[cur]? = some i)
    (h1 : i ≠ Instruct.OpenLoop) (h2 : i ≠ Instruct.CloseLoop) :
    loop_skip_scan_spec instrs cur counter
      = loop_skip_scan_spec instrs (cur + 1) counter := by
  conv_lhs => rw [loop_skip_scan_spec]
  split <;> simp_all

/-- The code's local-stack scan is the specification's counter scan: only
the depth of the local stack matters. -/
theorem move_to_closed_loop_aux_eq (instrs : List Instruct) (stack : List Nat)
    (cur : Nat) :
    Program.move_to_closed_loop_aux instrs stack cur
      = match loop_skip_scan_spec instrs cur stack.length with
        | some pos => Except.ok pos
        | none => Except.error BFErrorKind.MissingClose := by
  cases h : instrs[cur]? with
  | none => rw [aux_none instrs stack cur h, scan_none instrs cur stack.length h]
  | some i =>
      have hlt : cur < instrs.length := by
        by_contra hc
        rw [List.getElem?_eq_none (by omega)] at h
        exact Option.noConfusion h
      cases i with
      | OpenLoop =>
          rw [aux_open instrs stack cur h, scan_open instrs cur stack.length h,
            move_to_closed_loop_aux_eq instrs (cur :: stack) (cur + 1)]
          rfl
      | CloseLoop =>
          cases stack with
          | nil =>
              rw [aux_close_nil instrs cur h,
                scan_close instrs cur ([] : List Nat).length h]
              simp
          | cons q rest =>
              rw [aux_close_cons instrs q rest cur h,
                scan_close instrs cur (q :: rest).length h,
                move_to_closed_loop_aux_eq instrs rest (cur + 1)]
              simp
      | MvPtr n =>
          rw [aux_other instrs stack cur _ h (by simp) (by simp),
            scan_other instrs cur stack.length _ h (by simp) (by simp),
            move_to_closed_loop_aux_eq instrs stack (cur + 1)]
      | MvValue n =>
          rw [aux_other instrs stack cur _ h (by simp) (by simp),
            scan_other instrs cur stack.length _ h (by simp) (by simp),
            move_to_closed_loop_aux_eq instrs stack (cur + 1)]
      | Output =>
          rw [aux_other instrs stack cur _ h (by simp) (by simp),
            scan_other instrs cur stack.length _ h (by simp) (by simp),
            move_to_closed_loop_aux_eq instrs stack (cur + 1)]
      | Input =>
          rw [aux_other instrs stack cur _ h (by simp) (by simp),
            scan_other instrs cur stack.length _ h (by simp) (by simp),
            move_to_closed_loop_aux_eq instrs stack (cur + 1)]
termination_by instrs.length - cur
decreasing_by all_goals omega

theorem move_to_closed_loop_eq_spec (p : Program) :
    p.move_to_closed_loop
      = match loop_skip_scan_spec p.instructions (p.instruction_ptr + 1) 0 with
        | some pos => Except.ok { p with instruction_ptr := pos }
        | none => Except.error BFErrorKind.MissingClose := by
  rw [Program.move_to_closed_loop]
  rw [show (0 : Nat) = ([] : List Nat).length from rfl]
  rw [move_to_closed_loop_aux_eq p.instructions [] (p.instruction_ptr + 1)]
  cases loop_skip_scan_spec p.instructions (p.instruction_ptr + 1) ([] : List Nat).length with
  | none => rfl
  | some pos => rfl

/-- Claim C1: when `step` executes an Open-Loop whose current cell is zero,
the engine behaves exactly as the spec's forward scan with a nesting
counter initialised to zero: if the scan finds the matching Close-Loop at
`pos`, the skip subroutine sets the instruction cursor to `pos` and
succeeds (the step then applies its unconditional +1); if the scan reaches
the end of the sequence, `step` fails with `MissingClose`. -/
theorem C1_open_loop_scan_spec (inp : Nat → Nat) (reads : Nat) (p : Program)
    (hi : p.instructions[p.instruction_ptr]? = some Instruct.OpenLoop)
    (hz : p.cells.getD p.cell_ptr 0 = 0) :
    (∀ pos, loop_skip_scan_spec p.instructions (p.instruction_ptr + 1) 0 = some pos →
        Program.move_to_closed_loop p.validate_cells_length
            = Except.ok { p.validate_cells_length with instruction_ptr := pos }
        ∧ (Program.step inp p reads).error = none
        ∧ (Program.step inp p reads).state.instruction_ptr = pos + 1
        ∧ (Program.step inp p reads).state.loop_stack = p.loop_stack)
    ∧ (loop_skip_scan_spec p.instructions (p.instruction_ptr + 1) 0 = none →
        (Program.step inp p reads).error = some BFErrorKind.MissingClose
        ∧ (Program.step inp p reads).state.instruction_ptr = p.instruction_ptr) := by
  have hz' : ¬ (p.validate_cells_length.cells.getD
      p.validate_cells_length.cell_ptr 0 > 0) := by
    rw [validate_cell_ptr, getD_validate, hz]
    omega
  constructor
  · intro pos hscan
    have hmv2 : Program.move_to_closed_loop p.validate_cells_length
        = Except.ok { p.validate_cells_length with instruction_ptr := pos } := by
      have h0 := move_to_closed_loop_eq_spec p.validate_cells_length
      rw [validate_instructions, validate_instruction_ptr, hscan] at h0
      exact h0
    have hopen : Program.open_loop p.validate_cells_length
        = Except.ok { p.validate_cells_length with instruction_ptr := pos } := by
      rw [Program.open_loop, if_neg hz', hmv2]
    have hstep : Program.step inp p reads
        = ⟨Program.advance { p.validate_cells_length with instruction_ptr := pos },
            reads, [], none⟩ := by
      simp only [Program.step, validate_instructions, validate_instruction_ptr,
        hi, hopen]
    rw [hstep]
    exact ⟨hmv2, rfl, rfl, rfl⟩
  · intro hscan
    have hmv2 : Program.move_to_closed_loop p.validate_cells_length
        = Except.error BFErrorKind.MissingClose := by
      have h0 := move_to_closed_loop_eq_spec p.validate_cells_length
      rw [validate_instructions, validate_instruction_ptr, hscan] at h0
      exact h0
    have hopen : Program.open_loop p.validate_cells_length
        = Except.error BFErrorKind.MissingClose := by
      rw [Program.open_loop, if_neg hz', hmv2]
    have hstep : Program.step inp p reads
        = ⟨p.validate_cells_length, reads, [], some BFErrorKind.MissingClose⟩ := by
      simp only [Program.step, validate_instructions, validate_instruction_ptr,
        hi, hopen]
    rw [hstep]
    exact ⟨rfl, rfl⟩

/-- Claim C2: a Close-Loop step with an empty loop stack fails with
`MissingOpen`; with a recorded position `n ≥ 1` on top of the stack it
pops the stack, sets the cursor to `n - 1`, and the step's unconditional
+1 advance lands the cursor exactly on `n`, the recorded Open-Loop
position. -/
theorem C2_close_loop_spec (inp : Nat → Nat) (reads : Nat) (p : Program)
    (hi : p.instructions[p.instruction_ptr]? = some Instruct.CloseLoop) :
    (p.loop_stack = [] →
      (Program.step inp p reads).error = some BFErrorKind.MissingOpen)
    ∧ (∀ n rest, p.loop_stack = n :: rest → 1 ≤ n →
      (Program.step inp p reads).error = none
      ∧ Program.close_loop p.validate_cells_length
          = Except.ok { p.validate_cells_length with
              instruction_ptr := n - 1, loop_stack := rest }
      ∧ (Program.step inp p reads).state.instruction_ptr = n
      ∧ (Program.step inp p reads).state.loop_stack = rest) := by
  constructor
  · intro hs
    have hclose : Program.close_loop p.validate_cells_length
        = Except.error BFErrorKind.MissingOpen := by
      rw [Program.close_loop]
      have : p.validate_cells_length.loop_stack = [] := by
        rw [validate_loop_stack, hs]
      rw [this]
    have hstep : Program.step inp p reads
        = ⟨p.validate_cells_length, reads, [], some BFErrorKind.MissingOpen⟩ := by
      simp only [Program.step, validate_instructions, validate_instruction_ptr,
        hi, hclose]
    rw [hstep]
  · intro n rest hs hn
    have hclose : Program.close_loop p.validate_cells_length
        = Except.ok { p.validate_cells_length with
            instruction_ptr := n - 1, loop_stack := rest } := by
      rw [Program.close_loop]
      have : p.validate_cells_length.loop_stack = n :: rest := by
        rw [validate_loop_stack, hs]
      rw [this]
    have hstep : Program.step inp p reads
        = ⟨Program.advance { p.validate_cells_length with
              instruction_ptr := n - 1, loop_stack := rest },
            reads, [], none⟩ := by
      simp only [Program.step, validate_instructions, validate_instruction_ptr,
        hi, hclose]
    rw [hstep]
    refine ⟨rfl, hclose, ?_, rfl⟩
    show n - 1 + 1 = n
    omega

/-- Claim C5: executing a Move-Value instruction adds its delta to the
current cell with modulo-256 wraparound (the `as i8` truncation composed
with the wrapping add is exactly addition modulo 256) and never fails. -/
theorem C5_move_value_wraps (inp : Nat → Nat) (reads : Nat) (p : Program) (d : Int)
    (hi : p.instructions[p.instruction_ptr]? = some (Instruct.MvValue d)) :
    (Program.step inp p reads).error = none
    ∧ (Program.step inp p reads).state.cells.getD p.cell_ptr 0
        = (((p.cells.getD p.cell_ptr 0 : Int) + d) % 256).toNat := by
  have hstep : Program.step inp p reads
      = ⟨Program.advance (Program.move_cell_value p.validate_cells_length d),
          reads, [], none⟩ := by
    simp only [Program.step, validate_instructions, validate_instruction_ptr, hi]
  rw [hstep]
  refine ⟨rfl, ?_⟩
  show (Program.move_cell_value p.validate_cells_length d).cells.getD p.cell_ptr 0 = _
  simp only [Program.move_cell_value, validate_cell_ptr]
  rw [getD_set_self _ _ _ (cell_ptr_lt_validate p), getD_validate]
  rw [Program.wrapping_add_signed, Program.as_i8]
  omega

/-- Claim C6: an Input step bumps the read counter by exactly one (the
provider is invoked exactly once); a code point above 255 fails with
`InvalidInput` leaving every cell value unchanged; otherwise the low byte
of the code point is stored at the current cell. -/
theorem C6_input_spec (inp : Nat → Nat) (reads : Nat) (p : Program)
    (hi : p.instructions[p.instruction_ptr]? = some Instruct.Input) :
    (Program.step inp p reads).reads = reads + 1
    ∧ (256 ≤ inp reads →
        (Program.step inp p reads).error = some BFErrorKind.InvalidInput
        ∧ ∀ i, (Program.step inp p reads).state.cells.getD i 0
            = p.cells.getD i 0)
    ∧ (inp reads < 256 →
        (Program.step inp p reads).error = none
        ∧ (Program.step inp p reads).state.cells.getD p.cell_ptr 0
            = inp reads % 256) := by
  by_cases hin : inp reads < 256
  · have hstep : Program.step inp p reads
        = ⟨Program.advance
            { p.validate_cells_length with
              cells := p.validate_cells_length.cells.set p.cell_ptr (inp reads) },
            reads + 1, [], none⟩ := by
      simp only [Program.step, validate_instructions, validate_instruction_ptr, hi]
      simp [Program.input_cell, hin, validate_cell_ptr, validate_instructions,
        validate_instruction_ptr, validate_loop_stack]
    rw [hstep]
    refine ⟨rfl, fun hge => absurd hin (by omega), fun _ => ⟨rfl, ?_⟩⟩
    show ((p.validate_cells_length.cells.set p.cell_ptr (inp reads)).getD p.cell_ptr 0) = _
    rw [getD_set_self _ _ _ (cell_ptr_lt_validate p), Nat.mod_eq_of_lt hin]
  · have hstep : Program.step inp p reads
        = ⟨p.validate_cells_length, reads + 1, [],
            some BFErrorKind.InvalidInput⟩ := by
      simp only [Program.step, validate_instructions, validate_instruction_ptr, hi]
      simp [Program.input_cell, hin]
    rw [hstep]
    exact ⟨rfl, fun _ => ⟨rfl, fun i => getD_validate p i⟩,
      fun hlt => absurd hlt hin⟩

/-- Claim C7: a Move-Pointer whose delta would take the tape cursor below
zero fails with `CellBoundsError` before any state change (cursors, stack
and all cell values are untouched); a move to any non-negative index
succeeds. -/
theorem C7_move_pointer_spec (inp : Nat → Nat) (reads : Nat) (p : Program) (d : Int)
    (hi : p.instructions[p.instruction_ptr]? = some (Instruct.MvPtr d)) :
    ((p.cell_ptr : Int) + d < 0 →
      (Program.step inp p reads).error = some BFErrorKind.CellBoundsError
      ∧ (Program.step inp p reads).state.instruction_ptr = p.instruction_ptr
      ∧ (Program.step inp p reads).state.cell_ptr = p.cell_ptr
      ∧ (Program.step inp p reads).state.loop_stack = p.loop_stack
      ∧ ∀ i, (Program.step inp p reads).state.cells.getD i 0 = p.cells.getD i 0)
    ∧ (0 ≤ (p.cell_ptr : Int) + d →
      (Program.step inp p reads).error = none
      ∧ (Program.step inp p reads).state.cell_ptr = ((p.cell_ptr : Int) + d).toNat) := by
  constructor
  · intro hneg
    have hstep : Program.step inp p reads
        = ⟨p.validate_cells_length, reads, [], some BFErrorKind.CellBoundsError⟩ := by
      simp only [Program.step, validate_instructions, validate_instruction_ptr, hi]
      simp [Program.move_cell_pointer, Program.checked_add_signed,
        validate_cell_ptr, hneg]
    rw [hstep]
    exact ⟨rfl, rfl, rfl, rfl, fun i => getD_validate p i⟩
  · intro hnn
    have hstep : Program.step inp p reads
        = ⟨Program.advance
            { p.validate_cells_length with cell_ptr := ((p.cell_ptr : Int) + d).toNat },
            reads, [], none⟩ := by
      simp only [Program.step, validate_instructions, validate_instruction_ptr, hi]
      simp [Program.move_cell_pointer, Program.checked_add_signed,
        validate_cell_ptr, validate_instructions, validate_instruction_ptr,
        validate_loop_stack, not_lt.mpr hnn]
    rw [hstep]
    exact ⟨rfl, rfl⟩

/-- Claim C10: every `step` first grows the tape past the tape cursor,
before the instruction is even fetched; a step failing with
`InstructionBoundsError` can therefore still enlarge the tape while
leaving the instruction cursor, tape cursor, cell values and loop stack
unchanged. -/
theorem C10_step_grows_tape (inp : Nat → Nat) (reads : Nat) (p : Program) :
    p.cell_ptr < (Program.step inp p reads).state.cells.length
    ∧ (p.instructions.length ≤ p.instruction_ptr →
        (Program.step inp p reads).error = some BFErrorKind.InstructionBoundsError
        ∧ (Program.step inp p reads).state.instruction_ptr = p.instruction_ptr
        ∧ (Program.step inp p reads).state.cell_ptr = p.cell_ptr
        ∧ (Program.step inp p reads).state.loop_stack = p.loop_stack
        ∧ (∀ i, (Program.step inp p reads).state.cells.getD i 0 = p.cells.getD i 0)
        ∧ (Program.step inp p reads).state.cells.length
            = max p.cells.length (p.cell_ptr + 1)) := by
  refine ⟨step_cells_length_lt inp reads p, fun hend => ?_⟩
  have hnone : p.instructions[p.instruction_ptr]? = none :=
    List.getElem?_eq_none hend
  have hstep : Program.step inp p reads
      = ⟨p.validate_cells_length, reads, [],
          some BFErrorKind.InstructionBoundsError⟩ := by
    simp only [Program.step, validate_instructions, validate_instruction_ptr, hnone]
  rw [hstep]
  exact ⟨rfl, rfl, rfl, rfl, fun i => getD_validate p i,
    by rw [validate_cells, length_grow_cells]⟩

/-! ### The loop-stack invariant (claim C9) -/

theorem inv_validate (p : Program) (h : Inv p) : Inv p.validate_cells_length := by
  obtain ⟨h1, h2⟩ := h
  refine ⟨?_, ?_⟩
  · intro q hq
    rw [validate_loop_stack] at hq
    exact h1 q hq
  · intro h0
    rw [validate_instruction_ptr] at h0
    obtain ⟨ha, hb, hc⟩ := h2 h0
    refine ⟨?_, ?_, ?_⟩
    · rw [validate_loop_stack]; exact ha
    · rw [validate_cell_ptr]; exact hb
    · intro i; rw [getD_validate]; exact hc i

theorem inv_advance (p1 : Program) (h1 : ∀ q ∈ p1.loop_stack, 1 ≤ q) :
    Inv (Program.advance p1) := by
  refine ⟨h1, ?_⟩
  intro h0
  exact absurd h0 (by simp [Program.advance])

theorem open_loop_ok_stack (p p1 : Program) (hinv : Inv p)
    (h : p.open_loop = Except.ok p1) : ∀ q ∈ p1.loop_stack, 1 ≤ q := by
  rw [Program.open_loop] at h
  by_cases hc : p.cells.getD p.cell_ptr 0 > 0
  · rw [if_pos hc] at h
    cases h
    intro q hq
    rcases List.mem_cons.mp hq with hq1 | hq2
    · subst hq1
      by_contra hlt
      have h0 : p.instruction_ptr = 0 := by omega
      obtain ⟨_, _, hcells⟩ := hinv.2 h0
      rw [hcells p.cell_ptr] at hc
      exact absurd hc (by omega)
    · exact hinv.1 q hq2
  · rw [if_neg hc, Program.move_to_closed_loop] at h
    cases hm : Program.move_to_closed_loop_aux p.instructions [] (p.instruction_ptr + 1) with
    | ok pos =>
        rw [hm] at h
        cases h
        intro q hq
        exact hinv.1 q hq
    | error e => rw [hm] at h; cases h

theorem close_loop_ok_stack (p p1 : Program) (hpos : ∀ q ∈ p.loop_stack, 1 ≤ q)
    (h : p.close_loop = Except.ok p1) : ∀ q ∈ p1.loop_stack, 1 ≤ q := by
  rw [Program.close_loop] at h
  cases hs : p.loop_stack with
  | nil => rw [hs] at h; cases h
  | cons n rest =>
      rw [hs] at h
      cases h
      intro q hq
      exact hpos q (by rw [hs]; exact List.mem_cons_of_mem _ hq)

theorem step_preserves_inv (inp : Nat → Nat) (reads : Nat) (p : Program)
    (h : Inv p) : Inv (Program.step inp p reads).state := by
  have hp' : Inv p.validate_cells_length := inv_validate p h
  simp only [Program.step]
  split
  · exact hp'
  · split
    · rename_i p1 heq
      refine inv_advance p1 ?_
      rw [(move_cell_pointer_ok _ _ _ heq).2.2.2]
      exact hp'.1
    · exact hp'
  · exact inv_advance _ hp'.1
  · split
    · rename_i p1 heq
      refine inv_advance p1 ?_
      rw [(input_cell_ok _ _ _ heq).2.2.2.2]
      exact hp'.1
    · exact hp'
  · exact inv_advance _ hp'.1
  · split
    · rename_i p1 heq
      exact inv_advance p1 (open_loop_ok_stack _ _ hp' heq)
    · exact hp'
  · split
    · rename_i p1 heq
      exact inv_advance p1 (close_loop_ok_stack _ _ hp'.1 heq)
    · exact hp'

theorem inv_new (instrs : List Instruct) : Inv (Program.new instrs) := by
  refine ⟨?_, ?_⟩
  · intro q hq
    simp [Program.new] at hq
  · intro _
    exact ⟨rfl, rfl, fun i => by simp [Program.new]⟩

theorem inv_reset (p : Program) : Inv p.reset := by
  refine ⟨?_, ?_⟩
  · intro q hq
    simp [Program.reset] at hq
  · intro _
    exact ⟨rfl, rfl, fun i => by simp [Program.reset]⟩

theorem reachable_inv (instrs : List Instruct) (p : Program)
    (h : Reachable instrs p) : Inv p := by
  induction h with
  | init => exact inv_new instrs
  | stepped inp reads q hq ih => exact step_preserves_inv inp reads q ih
  | was_reset q hq ih => exact inv_reset q

/-- Claim C9: in every state reachable from a fresh or reset engine
through stepping, every position on the loop stack is at least 1 (an
Open-Loop at position 0 only ever executes when every cell is still zero,
so position 0 is never pushed); hence the `- 1` applied to a popped
position in `close_loop` never underflows — subtracting one and adding
one gives the position back. -/
theorem C9_loop_stack_positive (instrs : List Instruct) (p : Program)
    (h : Reachable instrs p) :
    (∀ q ∈ p.loop_stack, 1 ≤ q)
    ∧ (∀ n rest, p.loop_stack = n :: rest → n - 1 + 1 = n) := by
  have hinv := reachable_inv instrs p h
  refine ⟨hinv.1, ?_⟩
  intro n rest hs
  have hn := hinv.1 n (by rw [hs]; exact List.mem_cons_self _ _)
  omega

/-! ### Witnesses: each claim theorem applied at a concrete input -/

/-- Witness for C1 on the program `[+]` started fresh (current cell 0):
the scan finds the Close-Loop at position 2 and the step succeeds. -/
theorem C1_open_loop_scan_spec_witness :
    (Program.from_string ['[', '+', ']']).instructions[(Program.from_string
        ['[', '+', ']']).instruction_ptr]? = some Instruct.OpenLoop
    ∧ loop_skip_scan_spec (Program.from_string ['[', '+', ']']).instructions 1 0
        = some 2
    ∧ (Program.step (fun _ => 0) (Program.from_string ['[', '+', ']']) 0).error = none
    ∧ (Program.step (fun _ => 0) (Program.from_string
        ['[', '+', ']']) 0).state.instruction_ptr = 2 + 1 := by
  have hscan : loop_skip_scan_spec (Program.from_string
      ['[', '+', ']']).instructions 1 0 = some 2 := by
    rw [scan_other _ 1 0 (Instruct.MvValue 1) rfl (by decide) (by decide),
      scan_close _ 2 0 rfl]
    simp
  have h := C1_open_loop_scan_spec (fun _ => 0) 0
    (Program.from_string ['[', '+', ']']) rfl rfl
  have h2 := h.1 2 hscan
  exact ⟨rfl, hscan, h2.2.1, h2.2.2.1⟩

/-- Witness for C2: a lone `]` fails with `MissingOpen`; a Close-Loop with
recorded position 1 on the stack returns the cursor to 1. -/
theorem C2_close_loop_spec_witness :
    ((Program.step (fun _ => 0) (Program.from_string [']']) 0).error
        = some BFErrorKind.MissingOpen)
    ∧ ((1 : Nat) ≤ 1
      ∧ (Program.step (fun _ => 0)
          (Program.mk [Instruct.OpenLoop, Instruct.CloseLoop] 1 [1] 0 [1]) 0).error = none
      ∧ (Program.step (fun _ => 0)
          (Program.mk [Instruct.OpenLoop, Instruct.CloseLoop] 1 [1] 0 [1])
          0).state.instruction_ptr = 1
      ∧ (Program.step (fun _ => 0)
          (Program.mk [Instruct.OpenLoop, Instruct.CloseLoop] 1 [1] 0 [1])
          0).state.loop_stack = []) := by
  have h1 := (C2_close_loop_spec (fun _ => 0) 0 (Program.from_string [']']) rfl).1 rfl
  have h2 := (C2_close_loop_spec (fun _ => 0) 0
    (Program.mk [Instruct.OpenLoop, Instruct.CloseLoop] 1 [1] 0 [1]) rfl).2
    1 [] rfl (by decide)
  exact ⟨h1, by decide, h2.1, h2.2.2.1, h2.2.2.2⟩

/-- Witness for C3 at three concrete engine states. -/
theorem C3_done_spec_witness :
    (Program.new []).done = Except.ok true
    ∧ (Program.from_string ['+']).done = Except.ok false
    ∧ (Program.mk [] 0 [] 0 [5]).done = Except.error BFErrorKind.MissingClose := by
  exact ⟨(C3_done_spec (Program.new [])).1.mpr ⟨by decide, rfl⟩,
    (C3_done_spec (Program.from_string ['+'])).2.1 (by decide),
    (C3_done_spec (Program.mk [] 0 [] 0 [5])).2.2 (by decide) (by decide)⟩

/-- Witness for C4 on the repository's own parser test string
`+-<>s[]comment,.` (the `s` and the word `comment` are discarded). -/
theorem C4_from_string_spec_witness :
    Instructions.from_string
        ['+', '-', '<', '>', 's', '[', ']', 'c', 'o', 'm', 'm', 'e', 'n', 't', ',', '.']
      = ['+', '-', '<', '>', 's', '[', ']', 'c', 'o', 'm', 'm', 'e', 'n', 't', ',',
          '.'].filterMap char_to_instruct
    ∧ (Instructions.from_string
        ['+', '-', '<', '>', 's', '[', ']', 'c', 'o', 'm', 'm', 'e', 'n', 't', ',',
          '.']).length
      = (['+', '-', '<', '>', 's', '[', ']', 'c', 'o', 'm', 'm', 'e', 'n', 't', ',',
          '.'].filter (fun c => (char_to_instruct c).isSome)).length
    ∧ char_to_instruct 's' = none := by
  refine ⟨(C4_from_string_spec _).1, (C4_from_string_spec _).2.1, ?_⟩
  exact (C4_from_string_spec
    []).2.2.2.2.2.2.2.2.2.2 's' (by decide)

/-- Witness for C5: a cell at 255 receiving +1 becomes 0, and a cell at 0
receiving -1 becomes 255. -/
theorem C5_move_value_wraps_witness :
    ((Program.step (fun _ => 0)
        (Program.mk [Instruct.MvValue 1] 0 [255] 0 []) 0).state.cells.getD 0 0
      = (((255 : Int) + 1) % 256).toNat)
    ∧ (((255 : Int) + 1) % 256).toNat = 0
    ∧ ((Program.step (fun _ => 0)
        (Program.from_string ['-']) 0).state.cells.getD 0 0
      = (((0 : Int) + (-1)) % 256).toNat)
    ∧ (((0 : Int) + (-1)) % 256).toNat = 255 := by
  refine ⟨?_, by decide, ?_, by decide⟩
  · exact (C5_move_value_wraps (fun _ => 0) 0
      (Program.mk [Instruct.MvValue 1] 0 [255] 0 []) 1 rfl).2
  · exact (C5_move_value_wraps (fun _ => 0) 0
      (Program.from_string ['-']) (-1) rfl).2

/-- Witness for C6: the spec's concrete scenario — source `,` with an
input callback answering code point 0x10FFFF fails with `InvalidInput`,
invokes the provider exactly once, and changes no cell value. -/
theorem C6_input_spec_witness :
    256 ≤ (1114111 : Nat)
    ∧ (Program.step (fun _ => 1114111) (Program.from_string [',']) 0).reads = 0 + 1
    ∧ (Program.step (fun _ => 1114111) (Program.from_string [',']) 0).error
        = some BFErrorKind.InvalidInput
    ∧ (∀ i, (Program.step (fun _ => 1114111)
        (Program.from_string [',']) 0).state.cells.getD i 0
      = (Program.from_string [',']).cells.getD i 0) := by
  have h := C6_input_spec (fun _ => 1114111) 0 (Program.from_string [',']) rfl
  have h2 := h.2.1 (by decide)
  exact ⟨by decide, h.1, h2.1, h2.2⟩

/-- Witness for C7: a single leading `<` fails with `CellBoundsError`
touching nothing, and a `>` from the initial state succeeds. -/
theorem C7_move_pointer_spec_witness :
    (((Program.from_string ['<']).cell_ptr : Int) + (-1) < 0
      ∧ (Program.step (fun _ => 0) (Program.from_string ['<']) 0).error
          = some BFErrorKind.CellBoundsError
      ∧ (Program.step (fun _ => 0) (Program.from_string ['<']) 0).state.cell_ptr
          = (Program.from_string ['<']).cell_ptr)
    ∧ ((0 : Int) ≤ ((Program.from_string ['>']).cell_ptr : Int) + 1
      ∧ (Program.step (fun _ => 0) (Program.from_string ['>']) 0).error = none
      ∧ (Program.step (fun _ => 0) (Program.from_string ['>']) 0).state.cell_ptr
          = (((Program.from_string ['>']).cell_ptr : Int) + 1).toNat) := by
  have ha := (C7_move_pointer_spec (fun _ => 0) 0
    (Program.from_string ['<']) (-1) rfl).1 (by decide)
  have hb := (C7_move_pointer_spec (fun _ => 0) 0
    (Program.from_string ['>']) 1 rfl).2 (by decide)
  exact ⟨⟨by decide, ha.1, ha.2.2.1⟩, ⟨by decide, hb.1, hb.2⟩⟩

/-- Witness for C9: after stepping `+[` twice from the initial state the
loop stack holds the recorded Open-Loop position, and every recorded
position is at least 1. -/
theorem C9_loop_stack_positive_witness :
    ((Program.step (fun _ => 0)
        (Program.step (fun _ => 0)
          (Program.new (Instructions.from_string ['+', '['])) 0).state
        0).state.loop_stack.all (fun q => decide (1 ≤ q))) = true := by
  have h := (C9_loop_stack_positive (Instructions.from_string ['+', '[']) _
    (Reachable.stepped (fun _ => 0) 0 _
      (Reachable.stepped (fun _ => 0) 0 _ Reachable.init))).1
  exact List.all_eq_true.mpr (fun q hq => decide_eq_true (h q hq))

/-- Witness for C10: stepping a completed (here: empty) program fails with
`InstructionBoundsError` yet grows the tape from 0 cells to 1. -/
theorem C10_step_grows_tape_witness :
    (Program.new []).instructions.length ≤ (Program.new []).instruction_ptr
    ∧ (Program.new []).cell_ptr
        < (Program.step (fun _ => 0) (Program.new []) 0).state.cells.length
    ∧ (Program.step (fun _ => 0) (Program.new []) 0).error
        = some BFErrorKind.InstructionBoundsError
    ∧ (Program.step (fun _ => 0) (Program.new []) 0).state.cells.length
        = max (Program.new []).cells.length ((Program.new []).cell_ptr + 1) := by
  have h := C10_step_grows_tape (fun _ => 0) 0 (Program.new [])
  have h2 := h.2 (by decide)
  exact ⟨by decide, h.1, h2.1, h2.2.2.2.2.2⟩

end RBF
